import Mathlib

/-
Shallow embedding of the SPSC-ring market-data core of the repository
(`src2`/`src3` variants and the `src/src` record type), together with
proofs of the spec-level properties about it.

Modelling conventions:
* Machine integers (`u64`, `u32`, `u8`, `usize`) are modelled as `Nat`;
  the only place a width matters is the `u64 → u32` conversion
  (`try_into().unwrap()`) in the `src3` buffer manager, which is modelled
  explicitly with a `2 ^ 32` bound.
* `f64` price fields are modelled as `ℚ`.  The core never computes with
  them: it only copies records and, in `validate`, compares them with
  `>` / `≥`, and the order on the finite doubles embeds in `ℚ`.
  (`NaN` inputs, for which every comparison is false, are not modelled;
  no claim below depends on them.)
* A Rust panic (`%` by zero, `Vec` indexing out of bounds,
  `try_into().unwrap()` failure) or an uninitialized-slot read (UB) is
  modelled by returning `none` from the operation.
* The sequential semantics of the atomics is used: each operation is a
  pure state transformer.  Loads/stores of `write_idx`/`read_idx` become
  reads/updates of the corresponding field.
-/

/-- Market-data record, from `src3/core/record.rs` (`MarketDataRecord`).
Field for field the Rust struct; `f64` fields are `ℚ`, integers `Nat`. -/
structure MarketDataRecord where
  token : Nat
  bid_price : ℚ
  ask_price : ℚ
  bid_size : Nat
  ask_size : Nat
  last_price : ℚ
  last_size : Nat
  timestamp : Nat
  sequence_num : Nat
  record_type : Nat
deriving DecidableEq

/-- `MarketDataRecord::validate` (`src3/core/record.rs`, identical in
`src3/core/market_data.rs`): `bid_price > 0.0 && ask_price > 0.0 &&
ask_price >= bid_price && bid_size > 0 && ask_size > 0`. -/
def MarketDataRecord.validate (r : MarketDataRecord) : Bool :=
  decide (r.bid_price > 0) && decide (r.ask_price > 0) &&
    decide (r.ask_price ≥ r.bid_price) && decide (r.bid_size > 0) &&
    decide (r.ask_size > 0)

/-- Shared state shape of the repository's SPSC rings
(`ZeroAllocRingBuffer` in `src2/memory/zero_alloc_ring_buffer.rs` and
`src3/memory/zero_alloc_ring_buffer.rs`; `RingBuffer` in
`src3/memory/instrument_buffer.rs`, whose fields are named
`data`/`write_pos`/`read_pos`).  `buffer` models the
`Box<[MaybeUninit<T>]>` (resp. the length-set `Vec<T>`): `none` is an
uninitialized slot. -/
structure RingState where
  buffer : List (Option MarketDataRecord)
  capacity : Nat
  write_idx : Nat
  read_idx : Nat
deriving DecidableEq

namespace RingBuffer

/-- `RingBuffer::new` (`src3/memory/instrument_buffer.rs`): `capacity`
uninitialized slots, both positions zero.  There is no capacity check. -/
def new (capacity : Nat) : RingState :=
  ⟨List.replicate capacity none, capacity, 0, 0⟩

/-- `RingBuffer::write` (`src3/memory/instrument_buffer.rs`):
`next_write = (write_pos + 1) % capacity` (panics when `capacity = 0`),
full when `next_write == read_pos`, otherwise store the record at
`write_pos` and publish `next_write`. -/
def write (rb : RingState) (record : MarketDataRecord) : Option (Bool × RingState) :=
  if rb.capacity = 0 then none
  else
    let next_write := (rb.write_idx + 1) % rb.capacity
    if next_write = rb.read_idx then some (false, rb)
    else
      some (true, { rb with
        buffer := rb.buffer.set rb.write_idx (some record),
        write_idx := next_write })

/-- `RingBuffer::read` (`src3/memory/instrument_buffer.rs`): empty when
`read_pos == write_pos`; otherwise read the slot (UB if uninitialized,
modelled `none`), compute `(read_pos + 1) % capacity` (panics when
`capacity = 0`) and publish it. -/
def read (rb : RingState) : Option (Option MarketDataRecord × RingState) :=
  if rb.read_idx = rb.write_idx then some (none, rb)
  else
    match rb.buffer.getD rb.read_idx none with
    | none => none
    | some record =>
      if rb.capacity = 0 then none
      else some (some record, { rb with read_idx := (rb.read_idx + 1) % rb.capacity })

end RingBuffer

namespace ZeroAllocRingBuffer

/-- `ZeroAllocRingBuffer::new` (`src2`/`src3`
`memory/zero_alloc_ring_buffer.rs`): `capacity` uninitialized slots,
both indices zero.  There is no capacity check and no error path. -/
def new (capacity : Nat) : RingState :=
  ⟨List.replicate capacity none, capacity, 0, 0⟩

/-- `ZeroAllocRingBuffer::write` (`src2`/`src3`
`memory/zero_alloc_ring_buffer.rs`): `next_idx = (idx + 1) % capacity`
(panics when `capacity = 0`); full when `next_idx == read_idx`; then the
unconditional `record.validate()` check; then the copy (plain or SIMD —
same effect) and the index publish. -/
def write (rb : RingState) (record : MarketDataRecord) : Option (Bool × RingState) :=
  if rb.capacity = 0 then none
  else
    let next_idx := (rb.write_idx + 1) % rb.capacity
    if next_idx = rb.read_idx then some (false, rb)
    else if ¬ record.validate then some (false, rb)
    else
      some (true, { rb with
        buffer := rb.buffer.set rb.write_idx (some record),
        write_idx := next_idx })

/-- `ZeroAllocRingBuffer::read` (`src2`/`src3`): textually the same code
as `RingBuffer::read`. -/
def read (rb : RingState) : Option (Option MarketDataRecord × RingState) :=
  if rb.read_idx = rb.write_idx then some (none, rb)
  else
    match rb.buffer.getD rb.read_idx none with
    | none => none
    | some record =>
      if rb.capacity = 0 then none
      else some (some record, { rb with read_idx := (rb.read_idx + 1) % rb.capacity })

/-- `ZeroAllocRingBuffer::is_full` (`src2/memory/zero_alloc_ring_buffer.rs`):
`(write_idx + 1) % capacity == read_idx` (panics when `capacity = 0`). -/
def is_full (rb : RingState) : Option Bool :=
  if rb.capacity = 0 then none
  else some (decide ((rb.write_idx + 1) % rb.capacity = rb.read_idx))

/-- `ZeroAllocRingBuffer::is_empty` (`src2/memory/zero_alloc_ring_buffer.rs`). -/
def is_empty (rb : RingState) : Bool :=
  decide (rb.read_idx = rb.write_idx)

end ZeroAllocRingBuffer

/-- `BufferType` (`src3/core/config.rs` /
`src2/memory/instrument_buffer.rs`). -/
inductive BufferType where
  | L1Price
  | L2Trade
  | Reference
deriving DecidableEq

/-- `InstrumentBufferConfig` (`src3/core/config.rs` /
`src2/core/instrument_index.rs`). -/
structure InstrumentBufferConfig where
  l1_buffer_size : Nat
  l2_buffer_size : Nat
  ref_buffer_size : Nat
deriving DecidableEq

/-- `InstrumentBuffer` (`src3/memory/instrument_buffer.rs`): three
`RingBuffer`s plus the per-set `last_sequence` gate (an `AtomicU64`). -/
structure InstrumentBuffer where
  token : Nat
  l1_buffer : RingState
  l2_buffer : RingState
  ref_buffer : RingState
  last_sequence : Nat
deriving DecidableEq

namespace InstrumentBuffer

/-- `InstrumentBuffer::new` (`src3/memory/instrument_buffer.rs`). -/
def new (token : Nat) (config : InstrumentBufferConfig) : InstrumentBuffer :=
  ⟨token, RingBuffer.new config.l1_buffer_size, RingBuffer.new config.l2_buffer_size,
    RingBuffer.new config.ref_buffer_size, 0⟩

/-- The `let buffer = match buffer_type { ... }` ring selection in
`InstrumentBuffer::write`/`read` (`src3/memory/instrument_buffer.rs`). -/
def selectRing (ib : InstrumentBuffer) (buffer_type : BufferType) : RingState :=
  match buffer_type with
  | .L1Price => ib.l1_buffer
  | .L2Trade => ib.l2_buffer
  | .Reference => ib.ref_buffer

/-- `InstrumentBuffer::write` (`src3/memory/instrument_buffer.rs`):
select the ring by kind; reject with `false` when
`record.get_sequence_num() <= last_sequence`; otherwise defer to the
ring's write and, on success only, store `last_sequence =
record.get_sequence_num()`. -/
def write (ib : InstrumentBuffer) (record : MarketDataRecord)
    (buffer_type : BufferType) : Option (Bool × InstrumentBuffer) :=
  if record.sequence_num ≤ ib.last_sequence then some (false, ib)
  else
    match buffer_type with
    | .L1Price =>
      match RingBuffer.write ib.l1_buffer record with
      | none => none
      | some (true, rg) =>
        some (true, { ib with l1_buffer := rg, last_sequence := record.sequence_num })
      | some (false, rg) => some (false, { ib with l1_buffer := rg })
    | .L2Trade =>
      match RingBuffer.write ib.l2_buffer record with
      | none => none
      | some (true, rg) =>
        some (true, { ib with l2_buffer := rg, last_sequence := record.sequence_num })
      | some (false, rg) => some (false, { ib with l2_buffer := rg })
    | .Reference =>
      match RingBuffer.write ib.ref_buffer record with
      | none => none
      | some (true, rg) =>
        some (true, { ib with ref_buffer := rg, last_sequence := record.sequence_num })
      | some (false, rg) => some (false, { ib with ref_buffer := rg })

/-- `InstrumentBuffer::read` (`src3/memory/instrument_buffer.rs`): pure
dispatch by kind to the selected ring's read; `last_sequence` untouched. -/
def read (ib : InstrumentBuffer) (buffer_type : BufferType) :
    Option (Option MarketDataRecord × InstrumentBuffer) :=
  match buffer_type with
  | .L1Price =>
    match RingBuffer.read ib.l1_buffer with
    | none => none
    | some (res, rg) => some (res, { ib with l1_buffer := rg })
  | .L2Trade =>
    match RingBuffer.read ib.l2_buffer with
    | none => none
    | some (res, rg) => some (res, { ib with l2_buffer := rg })
  | .Reference =>
    match RingBuffer.read ib.ref_buffer with
    | none => none
    | some (res, rg) => some (res, { ib with ref_buffer := rg })

end InstrumentBuffer

/-- Association-list model of the `HashMap<u32, usize>` guarded by the
`RwLock` in `InstrumentIndex` (`src2/core/instrument_index.rs`); newest
insertion first. -/
def mapLookup : List (Nat × Nat) → Nat → Option Nat
  | [], _ => none
  | (k, v) :: rest, t => if k = t then some v else mapLookup rest t

/-- `InstrumentIndex` (`src2/core/instrument_index.rs`; `src3/lib.rs`
declares an identically-used `core::instrument_index` module whose file
is absent from the sources — `src2`'s is the in-repo implementation).
`index` is the dense `Box<[AtomicU32]>` (initialized to `0`),
`token_map` the hash map, `count` and `capacity` as in the struct. -/
structure InstrumentIndex where
  index : List Nat
  token_map : List (Nat × Nat)
  count : Nat
  capacity : Nat
deriving DecidableEq

namespace InstrumentIndex

/-- `InstrumentIndex::new` (`src2/core/instrument_index.rs`). -/
def new (capacity : Nat) : InstrumentIndex :=
  ⟨List.replicate capacity 0, [], 0, capacity⟩

/-- `InstrumentIndex::register_instrument` (`src2/core/instrument_index.rs`):
if the token is in the map return its slot (state unchanged); else if
`count >= capacity` return `None`; else assign slot `count`, insert into
the map, store the token into `index[count]`, increment `count`. -/
def register_instrument (st : InstrumentIndex) (token : Nat) :
    Option Nat × InstrumentIndex :=
  match mapLookup st.token_map token with
  | some idx => (some idx, st)
  | none =>
    if st.count ≥ st.capacity then (none, st)
    else
      (some st.count,
        { st with
          token_map := (token, st.count) :: st.token_map,
          index := st.index.set st.count token,
          count := st.count + 1 })

/-- `InstrumentIndex::get_buffer_index` (`src2/core/instrument_index.rs`):
fast path — linear scan `for i in 0..count`, return the first `i` with
`index[i] == token`; slow path — hash-map lookup. -/
def get_buffer_index (st : InstrumentIndex) (token : Nat) : Option Nat :=
  match (List.range st.count).find? (fun i => st.index.getD i 0 == token) with
  | some i => some i
  | none => mapLookup st.token_map token

/-- Registering a list of tokens in order (repeated
`register_instrument` calls, results discarded). -/
def registerList (st : InstrumentIndex) : List Nat → InstrumentIndex
  | [] => st
  | t :: ts => registerList (st.register_instrument t).2 ts

end InstrumentIndex

/-- Consistency invariant of the directory, true of every state
reachable by `register_instrument` from `new`: the array and map sizes
fit, every map entry `(t, i)` points below `count` at a slot holding
`t`, and every registered slot's token looks up to that slot. -/
def DirInv (st : InstrumentIndex) : Prop :=
  st.index.length = st.capacity ∧ st.count ≤ st.capacity ∧
    (∀ p ∈ st.token_map, p.2 < st.count ∧ st.index.getD p.2 0 = p.1) ∧
    (∀ i, i < st.count → mapLookup st.token_map (st.index.getD i 0) = some i)

instance (st : InstrumentIndex) : Decidable (DirInv st) := by
  unfold DirInv
  infer_instance

/-- `InstrumentBufferManager` (`src3/memory/instrument_buffer.rs`):
the directory plus a fixed array of optional per-instrument buffer
sets. -/
structure InstrumentBufferManager where
  index : InstrumentIndex
  buffers : List (Option InstrumentBuffer)
  config : InstrumentBufferConfig
deriving DecidableEq

namespace InstrumentBufferManager

/-- `InstrumentBufferManager::new` (`src3/memory/instrument_buffer.rs`). -/
def new (capacity : Nat) (config : InstrumentBufferConfig) : InstrumentBufferManager :=
  ⟨InstrumentIndex.new capacity, List.replicate capacity none, config⟩

/-- `InstrumentBufferManager::write` (`src3/memory/instrument_buffer.rs`):
`token.try_into::<u32>().unwrap()` panics for `token ≥ 2^32` (modelled
`none`); then `get_buffer_index`; a hit indexes `buffers[idx]` (panic if
out of bounds) and dispatches to the set's write; otherwise `false`. -/
def write (m : InstrumentBufferManager) (token : Nat) (record : MarketDataRecord)
    (buffer_type : BufferType) : Option (Bool × InstrumentBufferManager) :=
  if token < 2 ^ 32 then
    match m.index.get_buffer_index token with
    | some idx =>
      if idx < m.buffers.length then
        match m.buffers.getD idx none with
        | some ib =>
          match ib.write record buffer_type with
          | none => none
          | some (b, ib') => some (b, { m with buffers := m.buffers.set idx (some ib') })
        | none => some (false, m)
      else none
    | none => some (false, m)
  else none

/-- `InstrumentBufferManager::read` (`src3/memory/instrument_buffer.rs`):
symmetric to `write`; unregistered tokens yield `None`. -/
def read (m : InstrumentBufferManager) (token : Nat) (buffer_type : BufferType) :
    Option (Option MarketDataRecord × InstrumentBufferManager) :=
  if token < 2 ^ 32 then
    match m.index.get_buffer_index token with
    | some idx =>
      if idx < m.buffers.length then
        match m.buffers.getD idx none with
        | some ib =>
          match ib.read buffer_type with
          | none => none
          | some (res, ib') => some (res, { m with buffers := m.buffers.set idx (some ib') })
        | none => some (none, m)
      else none
    | none => some (none, m)
  else none

end InstrumentBufferManager

/-- Round `off` up to the next multiple of `a` (C/`repr(C)` field
alignment; `a = 0` never occurs for real field alignments). -/
def alignUp (off a : Nat) : Nat :=
  if a = 0 then off else ((off + a - 1) / a) * a

/-- End offset of a `repr(C)` struct's field list starting at `off`:
each field is placed at its alignment, fields in declaration order.
Fields are `(size, align)` pairs. -/
def reprCEnd (off : Nat) : List (Nat × Nat) → Nat
  | [] => off
  | (s, a) :: fs => reprCEnd (alignUp off a + s) fs

/-- Alignment of a `repr(C, align(n))` struct: the maximum of `n` and
the field alignments. -/
def reprCAlign (minAlign : Nat) (fields : List (Nat × Nat)) : Nat :=
  fields.foldl (fun m p => max m p.2) minAlign

/-- `size_of` for a `repr(C, align(n))` struct: the field-list end
offset rounded up to the struct alignment (the C layout rule Rust's
`repr(C)` follows). -/
def reprCSize (minAlign : Nat) (fields : List (Nat × Nat)) : Nat :=
  alignUp (reprCEnd 0 fields) (reprCAlign minAlign fields)

/-- `(size, align)` of the fields of `UltraLowLatencyRecord`
(`src2/core/record.rs`, `repr(C, align(64))`): `symbol_id: u32`,
`price: f64`, `quantity: u32`, `timestamp: u64`, `flags: u8`,
`_padding: [u8; 39]`. -/
def ultraLowLatencyRecordFields : List (Nat × Nat) :=
  [(4, 4), (8, 8), (4, 4), (8, 8), (1, 1), (39, 1)]

/-- `(size, align)` of the fields of `MarketDataRecord`
(`src3/core/market_data.rs`, `repr(C, align(64))`): `symbol_id: u32`,
`bid_price: f64`, `ask_price: f64`, `bid_size: u32`, `ask_size: u32`,
`last_price: f64`, `last_size: u32`, `timestamp: u64`,
`sequence_num: u64`, `flags: u8`, `_padding: [u8; 7]`. -/
def marketDataRecordFields : List (Nat × Nat) :=
  [(4, 4), (8, 8), (8, 8), (4, 4), (4, 4), (8, 8), (4, 4), (8, 8), (8, 8), (1, 1), (7, 1)]

/-- `(size, align)` of the fields of `Record` (`src/src/core/record.rs`,
`repr(C, align(64))`): `id: u64`, `symbol_id: u32`, `price: Price(i64)`,
`quantity: u32`, `timestamp: Timestamp(u64)`, `flags: u8`,
`_padding: [u8; 31]`.  Its own test (`test_record_size`) asserts
`size_of::<Record>() == 64`. -/
def recordFields : List (Nat × Nat) :=
  [(8, 8), (4, 4), (8, 8), (4, 4), (8, 8), (1, 1), (31, 1)]

/-- One call against a single ring: the operation alphabet of the
SPSC-ring claims. -/
inductive RingOp where
  | write (record : MarketDataRecord)
  | read
deriving DecidableEq

/-- Run a list of operations against a `ZeroAllocRingBuffer`, threading
the ghost counters `W` (successful writes so far) and `R` (successful
reads so far).  `none` propagates a panic. -/
def runC : RingState → Nat → Nat → List RingOp → Option (RingState × Nat × Nat)
  | rb, W, R, [] => some (rb, W, R)
  | rb, W, R, .write r :: ops =>
    match ZeroAllocRingBuffer.write rb r with
    | none => none
    | some (ok, rb') => runC rb' (if ok then W + 1 else W) R ops
  | rb, W, R, .read :: ops =>
    match ZeroAllocRingBuffer.read rb with
    | none => none
    | some (res, rb') => runC rb' W (if res.isSome then R + 1 else R) ops

/-- Write a list of records one by one with `RingBuffer::write`,
collecting the returned booleans. -/
def writeList : RingState → List MarketDataRecord → Option (List Bool × RingState)
  | rb, [] => some ([], rb)
  | rb, r :: rs =>
    match RingBuffer.write rb r with
    | none => none
    | some (ok, rb') =>
      match writeList rb' rs with
      | none => none
      | some (bs, rbf) => some (ok :: bs, rbf)

/-- Read `n` times with `RingBuffer::read`, collecting the results. -/
def readN : RingState → Nat → Option (List (Option MarketDataRecord) × RingState)
  | rb, 0 => some ([], rb)
  | rb, n + 1 =>
    match RingBuffer.read rb with
    | none => none
    | some (res, rb') =>
      match readN rb' n with
      | none => none
      | some (rs, rbf) => some (res :: rs, rbf)

/-- Write all of `rs` into a fresh `RingBuffer` of capacity `c`, then
read `rs.length` times: the outcome of the spec's round-trip scenario. -/
def roundTrip (c : Nat) (rs : List MarketDataRecord) :
    Option (List Bool × List (Option MarketDataRecord)) :=
  match writeList (RingBuffer.new c) rs with
  | none => none
  | some (bs, rb) =>
    match readN rb rs.length with
    | none => none
    | some (xs, _) => some (bs, xs)

/-- One call against a single buffer set: the operation alphabet of the
sequence-gate claims. -/
inductive SetOp where
  | write (record : MarketDataRecord) (buffer_type : BufferType)
  | read (buffer_type : BufferType)
deriving DecidableEq

/-- Run a list of operations against an `InstrumentBuffer` (results
discarded, panics propagated). -/
def runSet : InstrumentBuffer → List SetOp → Option InstrumentBuffer
  | ib, [] => some ib
  | ib, .write r bt :: ops =>
    match ib.write r bt with
    | none => none
    | some (_, ib') => runSet ib' ops
  | ib, .read bt :: ops =>
    match ib.read bt with
    | none => none
    | some (_, ib') => runSet ib' ops

/-- A well-formed sample record with sequence number `n` (valid under
`validate`: positive prices, ask ≥ bid, positive sizes). -/
def sampleRec (n : Nat) : MarketDataRecord :=
  ⟨7, 100, 101, 10, 10, 100, 5, 1000 + n, n, 0⟩

/-- A malformed sample record (`bid_price = 0` fails `validate`). -/
def badRec : MarketDataRecord :=
  ⟨7, 0, 101, 10, 10, 100, 5, 1000, 1, 0⟩

/-- The spec's S2 scenario replayed on a capacity-3 ring: write
sequences 1 and 2, write sequence 3, read once, retry sequence 3;
returns the four write results and the read result. -/
def s2Scenario : Option (Bool × Bool × Bool × Option MarketDataRecord × Bool) :=
  match RingBuffer.write (RingBuffer.new 3) (sampleRec 1) with
  | none => none
  | some (b1, rb1) =>
    match RingBuffer.write rb1 (sampleRec 2) with
    | none => none
    | some (b2, rb2) =>
      match RingBuffer.write rb2 (sampleRec 3) with
      | none => none
      | some (b3, rb3) =>
        match RingBuffer.read rb3 with
        | none => none
        | some (x, rb4) =>
          match RingBuffer.write rb4 (sampleRec 3) with
          | none => none
          | some (b4, _) => some (b1, b2, b3, x, b4)

/-- The spec's S2 scenario as written, on a capacity-2 ring: the first
two writes only. -/
def s2AsWritten : Option (Bool × Bool) :=
  match RingBuffer.write (RingBuffer.new 2) (sampleRec 1) with
  | none => none
  | some (b1, rb1) =>
    match RingBuffer.write rb1 (sampleRec 2) with
    | none => none
    | some (b2, _) => some (b1, b2)

/-- Ghost refinement relation for a ring state: `rb` is the wrapped
image of the spec's unbounded monotone counters `W` (successful writes)
and `R` (successful reads) and holds exactly the FIFO queue `q`.  The
code stores `write_idx = W mod C` and `read_idx = R mod C`; the `k`-th
successful write landed in slot `k mod C`. -/
structure RingRep (C : Nat) (rb : RingState) (W R : Nat)
    (q : List MarketDataRecord) : Prop where
  hpos : 0 < C
  hcap : rb.capacity = C
  hlen : rb.buffer.length = C
  hWR : R ≤ W
  hocc : W - R = q.length
  hbound : q.length < C
  hw : rb.write_idx = W % C
  hr : rb.read_idx = R % C
  hcontent : ∀ i, i < q.length → rb.buffer.getD ((R + i) % C) none = q[i]?

/-- A buffer set whose gate has already observed sequence number 5
(rings of capacity 2), used to exercise the replay rejection. -/
def gateSet5 : InstrumentBuffer :=
  ⟨7, RingBuffer.new 2, RingBuffer.new 2, RingBuffer.new 2, 5⟩

/-- A fresh buffer set whose rings have capacity 1, hence are
permanently full (a capacity-1 ring of this design holds 0 records). -/
def fullSet1 : InstrumentBuffer :=
  ⟨7, RingBuffer.new 1, RingBuffer.new 1, RingBuffer.new 1, 0⟩

/-- The directory state reached from `InstrumentIndex.new 4` by
registering token 9 (slot 0). -/
def dirAfterReg : InstrumentIndex :=
  ⟨[9, 0, 0, 0], [(9, 0)], 1, 4⟩

/-
Helper lemmas: list indexing and modular arithmetic.
-/

theorem getD_set_self {α : Type} (l : List α) (i : Nat) (a d : α)
    (h : i < l.length) : (l.set i a).getD i d = a := by
  simp [List.getD_eq_getElem?_getD, List.getElem?_set_self, h]

theorem getD_set_ne {α : Type} (l : List α) (i j : Nat) (a d : α)
    (h : i ≠ j) : (l.set i a).getD j d = l.getD j d := by
  simp [List.getD_eq_getElem?_getD, List.getElem?_set_ne h]

theorem mod_succ_mod (W C : Nat) : (W % C + 1) % C = (W + 1) % C := by
  conv_rhs => rw [Nat.add_mod]
  rw [Nat.add_mod (W % C) 1 C, Nat.mod_mod_of_dvd _ (dvd_refl C)]

theorem mod_add_inj {R i d C : Nat} (hi : i ≤ d) (hd : d - i < C)
    (h : (R + i) % C = (R + d) % C) : i = d := by
  have h1 : R + i ≤ R + d := by omega
  have h2 : C ∣ (R + d) - (R + i) := (Nat.modEq_iff_dvd' h1).mp h
  have h3 : (R + d) - (R + i) = d - i := by omega
  rw [h3] at h2
  have := Nat.eq_zero_of_dvd_of_lt h2 hd
  omega

theorem full_iff {W R C : Nat} (hWR : R ≤ W) (hb : W - R < C) :
    ((W + 1) % C = R % C) ↔ W - R = C - 1 := by
  constructor
  · intro h
    have h1 : R ≤ W + 1 := by omega
    have h2 : C ∣ (W + 1) - R := (Nat.modEq_iff_dvd' h1).mp h.symm
    have h3 : (W + 1) - R = (W - R) + 1 := by omega
    rw [h3] at h2
    have h4 : C ≤ W - R + 1 := Nat.le_of_dvd (by omega) h2
    omega
  · intro h
    have h0 : 0 < C := by omega
    have h1 : W + 1 = R + C := by omega
    rw [h1, Nat.add_mod_right]

theorem empty_iff {W R C : Nat} (hWR : R ≤ W) (hb : W - R < C) :
    (R % C = W % C) ↔ W = R := by
  constructor
  · intro h
    have h2 : C ∣ W - R := (Nat.modEq_iff_dvd' hWR).mp h
    have := Nat.eq_zero_of_dvd_of_lt h2 hb
    omega
  · intro h
    rw [h]

/-
Step lemmas for `RingBuffer::write` / `RingBuffer::read` against the
refinement relation.
-/

theorem rep_new (C : Nat) (h : 0 < C) : RingRep C (RingBuffer.new C) 0 0 [] := by
  refine ⟨h, rfl, ?_, Nat.le_refl 0, rfl, h, rfl, rfl, ?_⟩
  · exact List.length_replicate C none
  · intro i hi
    simp at hi

theorem rb_write_full {C rb W R q} (rep : RingRep C rb W R q)
    (h : q.length + 1 = C) (r : MarketDataRecord) :
    RingBuffer.write rb r = some (false, rb) := by
  obtain ⟨hpos, hcap, hlen, hWR, hocc, hbound, hw, hr, hcontent⟩ := rep
  unfold RingBuffer.write
  rw [hcap, hw, hr, if_neg (by omega), mod_succ_mod]
  rw [if_pos ((full_iff hWR (by omega)).mpr (by omega))]

theorem rb_write_ok {C rb W R q} (rep : RingRep C rb W R q)
    (r : MarketDataRecord) (h : q.length + 1 < C) :
    RingBuffer.write rb r =
      some (true, { rb with
        buffer := rb.buffer.set (W % C) (some r),
        write_idx := (W + 1) % C }) ∧
    RingRep C { rb with
        buffer := rb.buffer.set (W % C) (some r),
        write_idx := (W + 1) % C } (W + 1) R (q ++ [r]) := by
  obtain ⟨hpos, hcap, hlen, hWR, hocc, hbound, hw, hr, hcontent⟩ := rep
  have hWRq : W = R + q.length := by omega
  constructor
  · have h1 : ¬ (rb.capacity = 0) := by omega
    have h2 : ¬ ((rb.write_idx + 1) % rb.capacity = rb.read_idx) := by
      rw [hw, hr, hcap, mod_succ_mod]
      intro hfull
      have := (full_iff hWR (by omega)).mp hfull
      omega
    unfold RingBuffer.write
    rw [if_neg h1]
    simp only []
    rw [if_neg h2, hw, hcap, mod_succ_mod]
  · refine ⟨hpos, hcap, ?_, by omega, ?_, ?_, rfl, hr, ?_⟩
    · simpa [List.length_set] using hlen
    · simp only [List.length_append, List.length_cons, List.length_nil]
      omega
    · simp only [List.length_append, List.length_cons, List.length_nil]
      omega
    · intro i hi
      simp only [List.length_append, List.length_cons, List.length_nil] at hi
      rcases Nat.lt_or_ge i q.length with hlt | hge
      · have hne : (W % C) ≠ (R + i) % C := by
          intro heq
          have h9 : (R + i) % C = (R + q.length) % C := by
            rw [← hWRq, ← heq]
          have : i = q.length := mod_add_inj (Nat.le_of_lt hlt) (by omega) h9
          omega
        show (rb.buffer.set (W % C) (some r)).getD ((R + i) % C) none = _
        rw [getD_set_ne _ _ _ _ _ hne, hcontent i hlt,
          List.getElem?_append_left hlt]
      · have hieq : i = q.length := by omega
        subst hieq
        have hWmod : (R + q.length) % C = W % C := by rw [hWRq]
        show (rb.buffer.set (W % C) (some r)).getD ((R + q.length) % C) none = _
        rw [hWmod, getD_set_self _ _ _ _ (by rw [hlen]; exact Nat.mod_lt _ hpos)]
        rw [List.getElem?_append_right (Nat.le_refl _)]
        simp

theorem rb_read_empty {C rb W R q} (rep : RingRep C rb W R q) (h : q = []) :
    RingBuffer.read rb = some (none, rb) := by
  obtain ⟨hpos, hcap, hlen, hWR, hocc, hbound, hw, hr, hcontent⟩ := rep
  subst h
  have hWReq : W = R := by simp at hocc; omega
  unfold RingBuffer.read
  rw [hw, hr, hWReq, if_pos rfl]

theorem rb_read_ok {C rb W R q x t} (rep : RingRep C rb W R q) (h : q = x :: t) :
    RingBuffer.read rb = some (some x, { rb with read_idx := (R + 1) % C }) ∧
    RingRep C { rb with read_idx := (R + 1) % C } W (R + 1) t := by
  obtain ⟨hpos, hcap, hlen, hWR, hocc, hbound, hw, hr, hcontent⟩ := rep
  subst h
  simp only [List.length_cons] at hocc hbound
  have hne : ¬ (rb.read_idx = rb.write_idx) := by
    rw [hw, hr]
    intro heq
    have := (empty_iff (W := W) (R := R) (C := C) hWR (by omega)).mp heq
    omega
  have hslot : rb.buffer.getD rb.read_idx none = some x := by
    rw [hr]
    have := hcontent 0 (by simp)
    simpa using this
  have hC0 : ¬ (rb.capacity = 0) := by omega
  constructor
  · unfold RingBuffer.read
    rw [if_neg hne]
    simp only [hslot]
    rw [if_neg hC0, hr, hcap, mod_succ_mod]
  · refine ⟨hpos, hcap, hlen, by omega, by omega, by omega, hw, ?_, ?_⟩
    · show (R + 1) % C = (R + 1) % C
      rfl
    · intro i hi
      have := hcontent (i + 1) (by simp only [List.length_cons]; omega)
      show rb.buffer.getD ((R + 1 + i) % C) none = _
      rw [show R + 1 + i = R + (i + 1) by omega]
      simpa using this

/-
Step lemmas for `ZeroAllocRingBuffer::write` (which adds the
unconditional `validate` check) and totality of instrumented runs.
-/

theorem za_new_eq : ZeroAllocRingBuffer.new = RingBuffer.new := rfl

theorem za_read_eq : ZeroAllocRingBuffer.read = RingBuffer.read := rfl

theorem za_write_full {C rb W R q} (rep : RingRep C rb W R q)
    (h : q.length + 1 = C) (r : MarketDataRecord) :
    ZeroAllocRingBuffer.write rb r = some (false, rb) := by
  obtain ⟨hpos, hcap, hlen, hWR, hocc, hbound, hw, hr, hcontent⟩ := rep
  unfold ZeroAllocRingBuffer.write
  rw [if_neg (show ¬ (rb.capacity = 0) by omega)]
  simp only []
  rw [if_pos (show (rb.write_idx + 1) % rb.capacity = rb.read_idx by
    rw [hw, hr, hcap, mod_succ_mod]
    exact (full_iff hWR (by omega)).mpr (by omega))]

theorem za_write_invalid {C rb W R q} (rep : RingRep C rb W R q)
    (r : MarketDataRecord) (h : q.length + 1 < C) (hv : r.validate = false) :
    ZeroAllocRingBuffer.write rb r = some (false, rb) := by
  obtain ⟨hpos, hcap, hlen, hWR, hocc, hbound, hw, hr, hcontent⟩ := rep
  unfold ZeroAllocRingBuffer.write
  rw [if_neg (show ¬ (rb.capacity = 0) by omega)]
  simp only []
  rw [if_neg (show ¬ ((rb.write_idx + 1) % rb.capacity = rb.read_idx) by
    rw [hw, hr, hcap, mod_succ_mod]
    intro hfull
    have := (full_iff hWR (by omega)).mp hfull
    omega)]
  rw [if_pos (by rw [hv]; simp)]

theorem za_write_ok {C rb W R q} (rep : RingRep C rb W R q)
    (r : MarketDataRecord) (h : q.length + 1 < C) (hv : r.validate = true) :
    ZeroAllocRingBuffer.write rb r =
      some (true, { rb with
        buffer := rb.buffer.set (W % C) (some r),
        write_idx := (W + 1) % C }) ∧
    RingRep C { rb with
        buffer := rb.buffer.set (W % C) (some r),
        write_idx := (W + 1) % C } (W + 1) R (q ++ [r]) := by
  have hrb := rb_write_ok rep r h
  refine ⟨?_, hrb.2⟩
  obtain ⟨hpos, hcap, hlen, hWR, hocc, hbound, hw, hr, hcontent⟩ := rep
  have h2 : ¬ ((rb.write_idx + 1) % rb.capacity = rb.read_idx) := by
    rw [hw, hr, hcap, mod_succ_mod]
    intro hfull
    have := (full_iff hWR (by omega)).mp hfull
    omega
  unfold ZeroAllocRingBuffer.write
  rw [if_neg (show ¬ (rb.capacity = 0) by omega)]
  simp only []
  rw [if_neg h2, if_neg (by rw [hv]; simp), hw, hcap, mod_succ_mod]

theorem za_write_true_elim {C rb W R q rb'} (rep : RingRep C rb W R q)
    (r : MarketDataRecord) (h : ZeroAllocRingBuffer.write rb r = some (true, rb')) :
    rb' = { rb with
      buffer := rb.buffer.set (W % C) (some r),
      write_idx := (W + 1) % C } := by
  rcases Nat.lt_or_ge (q.length + 1) C with hlt | hge
  · cases hv : r.validate
    · rw [za_write_invalid rep r hlt hv] at h
      simp at h
    · have := (za_write_ok rep r hlt hv).1
      rw [this] at h
      simpa using h.symm
  · have hfull : q.length + 1 = C := by
      have := rep.hbound
      omega
    rw [za_write_full rep hfull r] at h
    simp at h

theorem runC_mono : ∀ (ops : List RingOp) (rb : RingState) (W R : Nat)
    (rb' : RingState) (W' R' : Nat),
    runC rb W R ops = some (rb', W', R') → W ≤ W' ∧ R ≤ R' := by
  intro ops
  induction ops with
  | nil =>
    intro rb W R rb' W' R' h
    simp [runC] at h
    omega
  | cons op ops ih =>
    intro rb W R rb' W' R' h
    cases op with
    | write r =>
      unfold runC at h
      cases hw : ZeroAllocRingBuffer.write rb r with
      | none => rw [hw] at h; simp at h
      | some p =>
        rw [hw] at h
        simp only [] at h
        have := ih _ _ _ _ _ _ h
        rcases this with ⟨h1, h2⟩
        constructor
        · exact le_trans (by split <;> omega) h1
        · exact h2
    | read =>
      unfold runC at h
      cases hr : ZeroAllocRingBuffer.read rb with
      | none => rw [hr] at h; simp at h
      | some p =>
        rw [hr] at h
        simp only [] at h
        have := ih _ _ _ _ _ _ h
        rcases this with ⟨h1, h2⟩
        constructor
        · exact h1
        · exact le_trans (by split <;> omega) h2

theorem runC_rep : ∀ (ops : List RingOp) {C : Nat} {rb : RingState} {W R : Nat}
    {q : List MarketDataRecord}, RingRep C rb W R q →
    ∃ rb' W' R' q', runC rb W R ops = some (rb', W', R') ∧ RingRep C rb' W' R' q' := by
  intro ops
  induction ops with
  | nil =>
    intro C rb W R q rep
    exact ⟨rb, W, R, q, rfl, rep⟩
  | cons op ops ih =>
    intro C rb W R q rep
    cases op with
    | write r =>
      rcases Nat.lt_or_ge (q.length + 1) C with hlt | hge
      · cases hv : r.validate
        · have hw := za_write_invalid rep r hlt hv
          obtain ⟨rb', W', R', q', hrun, rep'⟩ := ih rep
          refine ⟨rb', W', R', q', ?_, rep'⟩
          unfold runC
          rw [hw]
          simpa using hrun
        · have hw := (za_write_ok rep r hlt hv).1
          obtain ⟨rb', W', R', q', hrun, rep'⟩ := ih (za_write_ok rep r hlt hv).2
          refine ⟨rb', W', R', q', ?_, rep'⟩
          unfold runC
          rw [hw]
          simpa using hrun
      · have hfull : q.length + 1 = C := by
          have := rep.hbound
          omega
        have hw := za_write_full rep hfull r
        obtain ⟨rb', W', R', q', hrun, rep'⟩ := ih rep
        refine ⟨rb', W', R', q', ?_, rep'⟩
        unfold runC
        rw [hw]
        simpa using hrun
    | read =>
      cases hq : q with
      | nil =>
        have hr : ZeroAllocRingBuffer.read rb = some (none, rb) := by
          rw [za_read_eq]
          exact rb_read_empty rep hq
        obtain ⟨rb', W', R', q', hrun, rep'⟩ := ih rep
        refine ⟨rb', W', R', q', ?_, rep'⟩
        unfold runC
        rw [hr]
        simpa using hrun
      | cons x t =>
        have hstep := rb_read_ok rep hq
        have hr : ZeroAllocRingBuffer.read rb =
            some (some x, { rb with read_idx := (R + 1) % C }) := by
          rw [za_read_eq]
          exact hstep.1
        obtain ⟨rb', W', R', q', hrun, rep'⟩ := ih hstep.2
        refine ⟨rb', W', R', q', ?_, rep'⟩
        unfold runC
        rw [hr]
        simpa using hrun

/-
Round-trip lemmas for `RingBuffer` (`writeList` / `readN`).
-/

theorem writeList_ok : ∀ (rs : List MarketDataRecord) {C : Nat} {rb : RingState}
    {W R : Nat} {q : List MarketDataRecord}, RingRep C rb W R q →
    q.length + rs.length + 1 ≤ C →
    ∃ rb', writeList rb rs = some (List.replicate rs.length true, rb') ∧
      RingRep C rb' (W + rs.length) R (q ++ rs) := by
  intro rs
  induction rs with
  | nil =>
    intro C rb W R q rep hlen
    exact ⟨rb, by simp [writeList], by simpa using rep⟩
  | cons r rs ih =>
    intro C rb W R q rep hlen
    have hstep := rb_write_ok rep r (by simp at hlen; omega)
    have hw := hstep.1
    have rep' := hstep.2
    obtain ⟨rbf, hws, repf⟩ := ih rep' (by simp at hlen ⊢; omega)
    refine ⟨rbf, ?_, ?_⟩
    · unfold writeList
      rw [hw]
      simp only []
      rw [hws]
      simp [List.replicate_succ]
    · have harith : W + 1 + rs.length = W + (rs.length + 1) := by omega
      rw [harith] at repf
      simpa using repf

theorem readN_all : ∀ (q : List MarketDataRecord) {C : Nat} {rb : RingState}
    {W R : Nat}, RingRep C rb W R q →
    ∃ rb', readN rb q.length = some (q.map some, rb') ∧
      RingRep C rb' W (R + q.length) [] := by
  intro q
  induction q with
  | nil =>
    intro C rb W R rep
    exact ⟨rb, by simp [readN], by simpa using rep⟩
  | cons x t ih =>
    intro C rb W R rep
    have hstep := rb_read_ok rep rfl
    obtain ⟨rbf, hrs, repf⟩ := ih hstep.2
    refine ⟨rbf, ?_, ?_⟩
    · show readN rb (t.length + 1) = _
      unfold readN
      rw [hstep.1]
      simp only []
      rw [hrs]
      simp
    · have : R + 1 + t.length = R + (t.length + 1) := by omega
      rw [this] at repf
      simpa using repf

/-
Buffer-set (sequence gate) lemmas.
-/

theorem rb_write_false_state {rb : RingState} {r : MarketDataRecord} {rb' : RingState}
    (h : RingBuffer.write rb r = some (false, rb')) : rb' = rb := by
  unfold RingBuffer.write at h
  split at h
  · simp at h
  · simp only [] at h
    split at h
    · simp at h
      exact h.symm
    · simp at h

theorem ib_write_gate {ib : InstrumentBuffer} {r : MarketDataRecord} {bt : BufferType}
    (h : r.sequence_num ≤ ib.last_sequence) :
    InstrumentBuffer.write ib r bt = some (false, ib) := by
  unfold InstrumentBuffer.write
  rw [if_pos h]

theorem ib_write_true_elim {ib : InstrumentBuffer} {r : MarketDataRecord}
    {bt : BufferType} {ib' : InstrumentBuffer}
    (h : InstrumentBuffer.write ib r bt = some (true, ib')) :
    ib.last_sequence < r.sequence_num ∧ ib'.last_sequence = r.sequence_num := by
  unfold InstrumentBuffer.write at h
  by_cases hg : r.sequence_num ≤ ib.last_sequence
  · rw [if_pos hg] at h
    simp at h
  · rw [if_neg hg] at h
    refine ⟨by omega, ?_⟩
    cases bt <;> simp only [] at h <;> split at h <;> simp_all
    all_goals rw [← h]

theorem ib_write_false_elim {ib : InstrumentBuffer} {r : MarketDataRecord}
    {bt : BufferType} {ib' : InstrumentBuffer}
    (h : InstrumentBuffer.write ib r bt = some (false, ib')) : ib' = ib := by
  unfold InstrumentBuffer.write at h
  by_cases hg : r.sequence_num ≤ ib.last_sequence
  · rw [if_pos hg] at h
    simpa using h.symm
  · rw [if_neg hg] at h
    cases bt <;> simp only [] at h <;> split at h <;> rename_i heq <;> simp_all <;>
      rw [← h] <;> rw [rb_write_false_state heq]

theorem ib_write_last_mono {ib : InstrumentBuffer} {r : MarketDataRecord}
    {bt : BufferType} {b : Bool} {ib' : InstrumentBuffer}
    (h : InstrumentBuffer.write ib r bt = some (b, ib')) :
    ib.last_sequence ≤ ib'.last_sequence := by
  cases b
  · rw [ib_write_false_elim h]
  · have := ib_write_true_elim h
    omega

theorem ib_read_last {ib : InstrumentBuffer} {bt : BufferType}
    {res : Option MarketDataRecord} {ib' : InstrumentBuffer}
    (h : InstrumentBuffer.read ib bt = some (res, ib')) :
    ib'.last_sequence = ib.last_sequence := by
  cases bt <;> simp only [InstrumentBuffer.read] at h <;> split at h <;> simp at h <;>
    try rw [← h.2]

theorem runSet_last_mono : ∀ (ops : List SetOp) (ib ib' : InstrumentBuffer),
    runSet ib ops = some ib' → ib.last_sequence ≤ ib'.last_sequence := by
  intro ops
  induction ops with
  | nil =>
    intro ib ib' h
    simp [runSet] at h
    rw [h]
  | cons op ops ih =>
    intro ib ib' h
    cases op with
    | write r bt =>
      unfold runSet at h
      cases hw : ib.write r bt with
      | none => rw [hw] at h; simp at h
      | some p =>
        obtain ⟨b, ib1⟩ := p
        rw [hw] at h
        simp only [] at h
        exact le_trans (ib_write_last_mono hw) (ih _ _ h)
    | read bt =>
      unfold runSet at h
      cases hr : ib.read bt with
      | none => rw [hr] at h; simp at h
      | some p =>
        obtain ⟨res, ib1⟩ := p
        rw [hr] at h
        simp only [] at h
        have h2 := ib_read_last hr
        have h3 := ih _ _ h
        omega

/-
Directory (`InstrumentIndex`) lemmas.
-/

theorem mapLookup_mem : ∀ (l : List (Nat × Nat)) (t i : Nat),
    mapLookup l t = some i → (t, i) ∈ l := by
  intro l
  induction l with
  | nil =>
    intro t i h
    simp [mapLookup] at h
  | cons p rest ih =>
    intro t i h
    obtain ⟨k, v⟩ := p
    unfold mapLookup at h
    by_cases hk : k = t
    · rw [if_pos hk] at h
      simp at h
      subst hk
      subst h
      exact List.mem_cons_self _ _
    · rw [if_neg hk] at h
      exact List.mem_cons_of_mem _ (ih t i h)

theorem dirInv_lookup_iff {st : InstrumentIndex} {t i : Nat} (h : DirInv st) :
    mapLookup st.token_map t = some i ↔ (i < st.count ∧ st.index.getD i 0 = t) := by
  obtain ⟨h1, h2, h3, h4⟩ := h
  constructor
  · intro hl
    exact h3 (t, i) (mapLookup_mem _ _ _ hl)
  · rintro ⟨hi, hidx⟩
    have := h4 i hi
    rw [hidx] at this
    exact this

theorem dirInv_register {st : InstrumentIndex} (h : DirInv st) (t : Nat) :
    DirInv (st.register_instrument t).2 := by
  obtain ⟨h1, h2, h3, h4⟩ := h
  unfold InstrumentIndex.register_instrument
  cases hl : mapLookup st.token_map t with
  | some i => exact ⟨h1, h2, h3, h4⟩
  | none =>
    by_cases hc : st.count ≥ st.capacity
    · rw [if_pos hc]
      exact ⟨h1, h2, h3, h4⟩
    · rw [if_neg hc]
      refine ⟨?_, ?_, ?_, ?_⟩
      · simpa [List.length_set] using h1
      · show st.count + 1 ≤ st.capacity
        omega
      · intro p hp
        rcases List.mem_cons.mp hp with hhead | htail
        · subst hhead
          refine ⟨by show st.count < st.count + 1; omega, ?_⟩
          show (st.index.set st.count t).getD st.count 0 = t
          exact getD_set_self _ _ _ _ (by rw [h1]; omega)
        · have hq := h3 p htail
          refine ⟨by show p.2 < st.count + 1; omega, ?_⟩
          show (st.index.set st.count t).getD p.2 0 = p.1
          rw [getD_set_ne _ _ _ _ _ (by omega)]
          exact hq.2
      · intro i hi
        show mapLookup ((t, st.count) :: st.token_map)
          ((st.index.set st.count t).getD i 0) = some i
        rcases Nat.lt_or_ge i st.count with hlt | hge
        · rw [getD_set_ne _ _ _ _ _ (by omega)]
          unfold mapLookup
          rw [if_neg (fun he => by rw [he] at hl; rw [h4 i hlt] at hl; cases hl)]
          exact h4 i hlt
        · have hieq : i = st.count := by
            have : i < st.count + 1 := hi
            omega
          subst hieq
          rw [getD_set_self _ _ _ _ (by rw [h1]; omega)]
          unfold mapLookup
          rw [if_pos rfl]

theorem register_keeps_lookup {st : InstrumentIndex} {t s : Nat}
    (hl : mapLookup st.token_map t = some s) (u : Nat) :
    mapLookup ((st.register_instrument u).2).token_map t = some s := by
  unfold InstrumentIndex.register_instrument
  cases hu : mapLookup st.token_map u with
  | some i => simpa using hl
  | none =>
    by_cases hc : st.count ≥ st.capacity
    · rw [if_pos hc]
      simpa using hl
    · rw [if_neg hc]
      show mapLookup ((u, st.count) :: st.token_map) t = some s
      unfold mapLookup
      have hne : u ≠ t := by
        intro he
        rw [he] at hu
        rw [hu] at hl
        cases hl
      rw [if_neg hne]
      exact hl

theorem registerList_keeps : ∀ (ts : List Nat) (st : InstrumentIndex) (t s : Nat),
    DirInv st → mapLookup st.token_map t = some s →
    DirInv (InstrumentIndex.registerList st ts) ∧
      mapLookup (InstrumentIndex.registerList st ts).token_map t = some s := by
  intro ts
  induction ts with
  | nil =>
    intro st t s h1 h2
    exact ⟨h1, h2⟩
  | cons u us ih =>
    intro st t s h1 h2
    exact ih _ t s (dirInv_register h1 u) (register_keeps_lookup h2 u)

theorem dirInv_fastpath {st : InstrumentIndex} {t s : Nat} (h : DirInv st)
    (hl : mapLookup st.token_map t = some s) :
    st.get_buffer_index t = some s := by
  have hs := (dirInv_lookup_iff h).mp hl
  unfold InstrumentIndex.get_buffer_index
  cases hf : (List.range st.count).find? (fun i => st.index.getD i 0 == t) with
  | none =>
    exfalso
    have hnone := List.find?_eq_none.mp hf s (List.mem_range.mpr hs.1)
    exact hnone (beq_iff_eq.mpr hs.2)
  | some i =>
    have hp := List.find?_some hf
    simp only [beq_iff_eq] at hp
    have hi : i < st.count := List.mem_range.mp (List.mem_of_find?_eq_some hf)
    have hli : mapLookup st.token_map t = some i :=
      (dirInv_lookup_iff h).mpr ⟨hi, hp⟩
    rw [hl] at hli
    exact hli.symm

theorem dirInv_lookup_none {st : InstrumentIndex} {t : Nat} (h : DirInv st)
    (hl : mapLookup st.token_map t = none) :
    st.get_buffer_index t = none := by
  unfold InstrumentIndex.get_buffer_index
  cases hf : (List.range st.count).find? (fun i => st.index.getD i 0 == t) with
  | none => exact hl
  | some i =>
    exfalso
    have hp := List.find?_some hf
    simp only [beq_iff_eq] at hp
    have hi : i < st.count := List.mem_range.mp (List.mem_of_find?_eq_some hf)
    have hli : mapLookup st.token_map t = some i :=
      (dirInv_lookup_iff h).mpr ⟨hi, hp⟩
    rw [hl] at hli
    cases hli

theorem register_some_elim {st : InstrumentIndex} {t s : Nat} {st₁ : InstrumentIndex}
    (h : DirInv st) (hr : st.register_instrument t = (some s, st₁)) :
    DirInv st₁ ∧ mapLookup st₁.token_map t = some s := by
  have hinv : DirInv (st.register_instrument t).2 := dirInv_register h t
  rw [hr] at hinv
  refine ⟨hinv, ?_⟩
  unfold InstrumentIndex.register_instrument at hr
  cases hl : mapLookup st.token_map t with
  | some i =>
    rw [hl] at hr
    simp at hr
    rw [← hr.2, hl, hr.1]
  | none =>
    rw [hl] at hr
    by_cases hc : st.count ≥ st.capacity
    · rw [if_pos hc] at hr
      simp at hr
    · rw [if_neg hc] at hr
      simp only [Prod.mk.injEq, Option.some.injEq] at hr
      rw [← hr.2]
      show mapLookup ((t, st.count) :: st.token_map) t = some s
      unfold mapLookup
      rw [if_pos rfl, hr.1]

/-
Claim theorems.
-/

/-- C1 (corrected): the ring holds only `capacity - 1` records, so the
round-trip needs `capacity ≥ n + 1`: writing `n` records with strictly
increasing `sequence_num` into a fresh ring of capacity `≥ n + 1`
returns `true` every time and reading `n` times yields exactly those
records in order; the S2 scenario holds on a ring of capacity 3 (not 2):
writes of sequences 1 and 2 succeed, a third write returns `false`, a
read yields record 1, and the retried write then succeeds. -/
theorem c1_round_trip :
    (∀ (C : Nat) (rs : List MarketDataRecord),
      List.Pairwise (fun a b => a.sequence_num < b.sequence_num) rs →
      rs.length + 1 ≤ C →
      roundTrip C rs = some (List.replicate rs.length true, rs.map some)) ∧
    s2Scenario = some (true, true, false, some (sampleRec 1), true) := by
  constructor
  · intro C rs hseq hlen
    have hrep := rep_new C (by omega)
    obtain ⟨rb1, hws, rep1⟩ := writeList_ok rs hrep (by simpa using hlen)
    rw [List.nil_append] at rep1
    obtain ⟨rb2, hrs2, _⟩ := readN_all rs rep1
    unfold roundTrip
    rw [hws]
    simp only []
    rw [hrs2]
  · decide

/-- C1 counterexample: on a fresh ring of capacity 2, with records of
sequence 1 and 2 (strictly increasing, n = 2 ≤ capacity), the first
write succeeds but the second returns `false` — the claim's S2 scenario
("write sequences 1, 2 → both succeed" at capacity 2) is false of the
code, which keeps one slot empty. -/
theorem c1_capacity_two_counterexample :
    s2AsWritten = some (true, false) ∧
    List.Pairwise (fun a b => a.sequence_num < b.sequence_num)
      [sampleRec 1, sampleRec 2] := by decide

/-- C1 witness: the amended round-trip at capacity 4 with two records. -/
theorem c1_round_trip_witness :
    roundTrip 4 [sampleRec 1, sampleRec 2] =
      some (List.replicate 2 true, [sampleRec 1, sampleRec 2].map some) :=
  c1_round_trip.1 4 [sampleRec 1, sampleRec 2] (by decide) (by decide)

/-- C2 (confirmed): for any buffer set, if a write of `r₁` succeeds and,
after any further operations on the set, a write of `r₂` succeeds (any
kinds), then `r₂.sequence_num > r₁.sequence_num`; and a write whose
`sequence_num` is `≤ last_sequence` returns `false` and leaves the set
(`last_sequence` and all three rings) bit-for-bit unchanged. -/
theorem c2_sequence_gate :
    (∀ (ib : InstrumentBuffer) (r1 : MarketDataRecord) (bt1 : BufferType)
      (ib1 : InstrumentBuffer) (ops : List SetOp) (ib2 : InstrumentBuffer)
      (r2 : MarketDataRecord) (bt2 : BufferType) (ib3 : InstrumentBuffer),
      InstrumentBuffer.write ib r1 bt1 = some (true, ib1) →
      runSet ib1 ops = some ib2 →
      InstrumentBuffer.write ib2 r2 bt2 = some (true, ib3) →
      r1.sequence_num < r2.sequence_num) ∧
    (∀ (ib : InstrumentBuffer) (r : MarketDataRecord) (bt : BufferType),
      r.sequence_num ≤ ib.last_sequence →
      InstrumentBuffer.write ib r bt = some (false, ib)) := by
  constructor
  · intro ib r1 bt1 ib1 ops ib2 r2 bt2 ib3 h1 hrun h2
    have e1 := ib_write_true_elim h1
    have e2 := ib_write_true_elim h2
    have hm := runSet_last_mono ops ib1 ib2 hrun
    omega
  · intro ib r bt h
    exact ib_write_gate h

/-- C2 witness: a set that has observed sequence 5 rejects a replayed
sequence 3 with `false`, state unchanged. -/
theorem c2_sequence_gate_witness :
    InstrumentBuffer.write gateSet5 (sampleRec 3) BufferType.L1Price =
      some (false, gateSet5) :=
  c2_sequence_gate.2 gateSet5 (sampleRec 3) BufferType.L1Price (by decide)

/-- C3 (corrected): `ZeroAllocRingBuffer::write` returns `false` iff the
ring is full **or** the record fails the validity predicate — the
predicate is checked unconditionally (there is no configuration switch),
so an invalid record makes `write` return `false` even on a non-full
ring; when the ring is not full and the record is valid, `write`
returns `true` and stores the record. -/
theorem c3_write_false_iff :
    ∀ (rb : RingState) (r : MarketDataRecord), 0 < rb.capacity →
    (ZeroAllocRingBuffer.write rb r = some (false, rb) ↔
      (ZeroAllocRingBuffer.is_full rb = some true ∨ r.validate = false)) ∧
    (ZeroAllocRingBuffer.is_full rb = some false → r.validate = true →
      ZeroAllocRingBuffer.write rb r = some (true, { rb with
        buffer := rb.buffer.set rb.write_idx (some r),
        write_idx := (rb.write_idx + 1) % rb.capacity })) := by
  intro rb r hpos
  have hC0 : ¬ (rb.capacity = 0) := by omega
  constructor
  · constructor
    · intro hw
      unfold ZeroAllocRingBuffer.write at hw
      rw [if_neg hC0] at hw
      simp only [] at hw
      by_cases hfull : (rb.write_idx + 1) % rb.capacity = rb.read_idx
      · left
        unfold ZeroAllocRingBuffer.is_full
        rw [if_neg hC0]
        simp [hfull]
      · rw [if_neg hfull] at hw
        by_cases hv : r.validate
        · rw [if_neg (by simp [hv])] at hw
          simp at hw
        · right
          simpa using hv
    · intro hc
      unfold ZeroAllocRingBuffer.write
      rw [if_neg hC0]
      simp only []
      rcases hc with hfull | hv
      · unfold ZeroAllocRingBuffer.is_full at hfull
        rw [if_neg hC0] at hfull
        simp at hfull
        rw [if_pos hfull]
      · by_cases hfull : (rb.write_idx + 1) % rb.capacity = rb.read_idx
        · rw [if_pos hfull]
        · rw [if_neg hfull, if_pos (by simp [hv])]
  · intro hnf hv
    unfold ZeroAllocRingBuffer.is_full at hnf
    rw [if_neg hC0] at hnf
    simp at hnf
    unfold ZeroAllocRingBuffer.write
    rw [if_neg hC0]
    simp only []
    rw [if_neg hnf, if_neg (by simp [hv])]

/-- C3 counterexample: a fresh capacity-4 ring is not full, yet writing
a record with `bid_price = 0` (which fails `validate`) returns `false`
with no configuration of any predicate having taken place — refuting
"write returns false iff the ring is full" and "the validity predicate
does not by itself cause write to return false unless configured". -/
theorem c3_invalid_record_counterexample :
    ZeroAllocRingBuffer.is_full (ZeroAllocRingBuffer.new 4) = some false ∧
    badRec.validate = false ∧
    ZeroAllocRingBuffer.write (ZeroAllocRingBuffer.new 4) badRec =
      some (false, ZeroAllocRingBuffer.new 4) := by decide

/-- C3 witness: a capacity-1 ring is permanently full and rejects a
valid record. -/
theorem c3_write_false_iff_witness :
    ZeroAllocRingBuffer.write (ZeroAllocRingBuffer.new 1) (sampleRec 1) =
      some (false, ZeroAllocRingBuffer.new 1) :=
  ((c3_write_false_iff (ZeroAllocRingBuffer.new 1) (sampleRec 1) (by decide)).1).mpr
    (Or.inl (by decide))

/-- C4 (confirmed): when the sequence gate passes but the selected ring
is full, the buffer set's write returns `false` and the state (in
particular `last_sequence`) is unchanged; and whenever the write returns
a result, its boolean equals the underlying ring write's boolean, with
`last_sequence` set to `record.sequence_num` exactly on `true` and the
whole set unchanged on `false`. -/
theorem c4_buffer_full_no_advance :
    ∀ (ib : InstrumentBuffer) (r : MarketDataRecord) (bt : BufferType),
    ib.last_sequence < r.sequence_num →
    (RingBuffer.write (ib.selectRing bt) r = some (false, ib.selectRing bt) →
      InstrumentBuffer.write ib r bt = some (false, ib)) ∧
    (∀ (b : Bool) (ib' : InstrumentBuffer),
      InstrumentBuffer.write ib r bt = some (b, ib') →
      (RingBuffer.write (ib.selectRing bt) r).map Prod.fst = some b ∧
      (b = true → ib'.last_sequence = r.sequence_num) ∧
      (b = false → ib' = ib)) := by
  intro ib r bt hg
  have hgate : ¬ (r.sequence_num ≤ ib.last_sequence) := by omega
  constructor
  · intro hring
    unfold InstrumentBuffer.write
    rw [if_neg hgate]
    cases bt <;> simp only [InstrumentBuffer.selectRing] at hring <;> simp only [] <;>
      rw [hring]
  · intro b ib' h
    refine ⟨?_, fun hb => by subst hb; exact (ib_write_true_elim h).2,
      fun hb => by subst hb; exact ib_write_false_elim h⟩
    unfold InstrumentBuffer.write at h
    rw [if_neg hgate] at h
    cases bt <;> simp only [InstrumentBuffer.selectRing] <;> simp only [] at h <;>
      split at h <;> rename_i heq <;> rw [heq] <;> simp_all

/-- C4 witness: a capacity-1 ring is permanently full, so a gate-passing
write propagates `false` and leaves the set unchanged. -/
theorem c4_buffer_full_no_advance_witness :
    InstrumentBuffer.write fullSet1 (sampleRec 1) BufferType.L1Price =
      some (false, fullSet1) :=
  (c4_buffer_full_no_advance fullSet1 (sampleRec 1) BufferType.L1Price (by decide)).1
    (by decide)

/-- C5 (confirmed, as a refinement): along any run against a fresh ring
of capacity `C > 0`, the run never panics, and the stored indices are
the wrapped images of unbounded monotone success counters `W ≥ R` with
`W - R ≤ C`: `write_idx = W mod C`, `read_idx = R mod C`, a successful
write at counter value `W` lands in slot `W mod C` and publishes
`(W + 1) mod C`, and the counters never decrease along any continuation
of the run. -/
theorem c5_monotone_counters :
    ∀ (C : Nat) (ops : List RingOp), 0 < C →
    (runC (ZeroAllocRingBuffer.new C) 0 0 ops).isSome = true ∧
    (∀ (rb : RingState) (W R : Nat),
      runC (ZeroAllocRingBuffer.new C) 0 0 ops = some (rb, W, R) →
      R ≤ W ∧ W - R ≤ C ∧ rb.write_idx = W % C ∧ rb.read_idx = R % C ∧
      (∀ (r : MarketDataRecord) (rb' : RingState),
        ZeroAllocRingBuffer.write rb r = some (true, rb') →
        rb'.buffer.getD (W % C) none = some r ∧ rb'.write_idx = (W + 1) % C) ∧
      (∀ (ops' : List RingOp) (rb' : RingState) (W' R' : Nat),
        runC rb W R ops' = some (rb', W', R') → W ≤ W' ∧ R ≤ R')) := by
  intro C ops hC
  have hrep0 : RingRep C (ZeroAllocRingBuffer.new C) 0 0 [] := by
    rw [za_new_eq]
    exact rep_new C hC
  obtain ⟨rbx, Wx, Rx, qx, hrun, repx⟩ := runC_rep ops hrep0
  constructor
  · rw [hrun]
    rfl
  · intro rb W R h
    rw [hrun] at h
    simp only [Option.some.injEq, Prod.mk.injEq] at h
    obtain ⟨hrb, hW, hR⟩ := h
    subst hrb
    subst hW
    subst hR
    refine ⟨repx.hWR, ?_, repx.hw, repx.hr, ?_, ?_⟩
    · have h1 := repx.hocc
      have h2 := repx.hbound
      omega
    · intro r rb' hw
      have hrb' := za_write_true_elim repx r hw
      subst hrb'
      refine ⟨?_, rfl⟩
      exact getD_set_self _ _ _ _ (by rw [repx.hlen]; exact Nat.mod_lt _ repx.hpos)
    · intro ops' rb' W' R' hrun'
      exact runC_mono ops' _ _ _ _ _ _ hrun'

/-- C5 witness: a write-then-read run on a fresh capacity-2 ring
completes without panic. -/
theorem c5_monotone_counters_witness :
    (0 : Nat) < 2 ∧
    (runC (ZeroAllocRingBuffer.new 2) 0 0
      [RingOp.write (sampleRec 1), RingOp.read]).isSome = true :=
  ⟨by decide, (c5_monotone_counters 2 [RingOp.write (sampleRec 1), RingOp.read]
    (by decide)).1⟩

/-- C10 (confirmed): along any run against a fresh ring of capacity
`C ≥ 1`, the number of written-but-unread records `W - R` never exceeds
`C - 1`; a write issued when `W - R = C - 1` returns `false` with the
state unchanged, and on a capacity-1 ring every write returns `false`. -/
theorem c10_spare_slot :
    ∀ (C : Nat) (ops : List RingOp), 0 < C →
    (runC (ZeroAllocRingBuffer.new C) 0 0 ops).isSome = true ∧
    (∀ (rb : RingState) (W R : Nat),
      runC (ZeroAllocRingBuffer.new C) 0 0 ops = some (rb, W, R) →
      W - R ≤ C - 1 ∧
      (W - R = C - 1 →
        ∀ r, ZeroAllocRingBuffer.write rb r = some (false, rb)) ∧
      (C = 1 → ∀ r, ZeroAllocRingBuffer.write rb r = some (false, rb))) := by
  intro C ops hC
  have hrep0 : RingRep C (ZeroAllocRingBuffer.new C) 0 0 [] := by
    rw [za_new_eq]
    exact rep_new C hC
  obtain ⟨rbx, Wx, Rx, qx, hrun, repx⟩ := runC_rep ops hrep0
  have hocc := repx.hocc
  have hbound := repx.hbound
  constructor
  · rw [hrun]
    rfl
  · intro rb W R h
    rw [hrun] at h
    simp only [Option.some.injEq, Prod.mk.injEq] at h
    obtain ⟨hrb, hW, hR⟩ := h
    subst hrb
    subst hW
    subst hR
    refine ⟨by omega, ?_, ?_⟩
    · intro hfull r
      exact za_write_full repx (by omega) r
    · intro hC1 r
      exact za_write_full repx (by omega) r

/-- C10 witness: a fresh capacity-1 ring already has `C - 1 = 0` records
buffered, so every write (even of a valid record) returns `false`. -/
theorem c10_spare_slot_witness :
    ZeroAllocRingBuffer.write (ZeroAllocRingBuffer.new 1) badRec =
      some (false, ZeroAllocRingBuffer.new 1) :=
  (((c10_spare_slot 1 [] (by decide)).2 (ZeroAllocRingBuffer.new 1) 0 0 rfl).2).2
    rfl badRec

/-- C6 (code bug): under the C layout rules that Rust's
`repr(C, align(64))` follows, each of the three record structs the core
stores — `UltraLowLatencyRecord` (`src2/core/record.rs`),
`MarketDataRecord` (`src3/core/market_data.rs`) and `Record`
(`src/src/core/record.rs`) — has size 128 bytes, not the 64 asserted by
the spec, by the structs' own `Pad to 64 bytes` comments and by the
repo's `test_record_size` test: interior alignment padding pushes the
field block past 64 bytes and the size rounds up to the 64-byte
alignment.  The alignment half of the claim (64) is correct. -/
theorem c6_record_layout :
    reprCSize 64 ultraLowLatencyRecordFields = 128 ∧
    reprCSize 64 marketDataRecordFields = 128 ∧
    reprCSize 64 recordFields = 128 ∧
    reprCAlign 64 ultraLowLatencyRecordFields = 64 ∧
    reprCAlign 64 marketDataRecordFields = 64 ∧
    reprCAlign 64 recordFields = 64 ∧
    ¬ (reprCSize 64 ultraLowLatencyRecordFields = 64) := by decide

/-- C7 (confirmed): if `register_instrument t` on a consistent directory
returns slot `s`, then after any further registrations, registering `t`
again returns the same slot `s` with the directory unchanged, and
`get_buffer_index t` returns `s`. -/
theorem c7_register_idempotent :
    ∀ (st : InstrumentIndex) (t s : Nat) (st₁ : InstrumentIndex),
    DirInv st → st.register_instrument t = (some s, st₁) →
    ∀ (ts : List Nat),
      (InstrumentIndex.registerList st₁ ts).register_instrument t =
        (some s, InstrumentIndex.registerList st₁ ts) ∧
      (InstrumentIndex.registerList st₁ ts).get_buffer_index t = some s := by
  intro st t s st₁ hinv hr ts
  obtain ⟨hinv₁, hl₁⟩ := register_some_elim hinv hr
  obtain ⟨hinv₂, hl₂⟩ := registerList_keeps ts st₁ t s hinv₁ hl₁
  constructor
  · unfold InstrumentIndex.register_instrument
    rw [hl₂]
  · exact dirInv_fastpath hinv₂ hl₂

/-- C7 witness: register token 9 into a fresh 4-slot directory (slot 0),
then register token 5; re-registering 9 still yields slot 0 and lookup
agrees. -/
theorem c7_register_idempotent_witness :
    (InstrumentIndex.registerList dirAfterReg [5]).register_instrument 9 =
      (some 0, InstrumentIndex.registerList dirAfterReg [5]) ∧
    (InstrumentIndex.registerList dirAfterReg [5]).get_buffer_index 9 = some 0 :=
  c7_register_idempotent (InstrumentIndex.new 4) 9 0 dirAfterReg (by decide)
    (by decide) [5]

/-- C8 (corrected): for a u32-representable token (`< 2^32`) that is not
in the directory's map, the manager's write returns `false` and its read
returns `none`, each leaving the whole manager (every registered
instrument's buffers included) bit-for-bit unchanged; tokens `≥ 2^32`
instead make the `src3` manager panic in `token.try_into().unwrap()`. -/
theorem c8_unregistered_dropped :
    ∀ (m : InstrumentBufferManager) (token : Nat) (r : MarketDataRecord)
      (bt : BufferType),
    token < 2 ^ 32 → DirInv m.index →
    mapLookup m.index.token_map token = none →
    InstrumentBufferManager.write m token r bt = some (false, m) ∧
    InstrumentBufferManager.read m token bt = some (none, m) := by
  intro m token r bt htok hinv hl
  have hidx := dirInv_lookup_none hinv hl
  constructor
  · unfold InstrumentBufferManager.write
    rw [if_pos htok, hidx]
  · unfold InstrumentBufferManager.read
    rw [if_pos htok, hidx]

/-- C8 counterexample: token `2^32` is unregistered on a fresh manager,
yet `write` does not return `false` and `read` does not return `none` —
both panic (the `u64 → u32` `try_into().unwrap()` fails), modelled as
`none` at the operation level. -/
theorem c8_big_token_counterexample :
    mapLookup (InstrumentBufferManager.new 4 ⟨2, 2, 2⟩).index.token_map
      (2 ^ 32) = none ∧
    InstrumentBufferManager.write (InstrumentBufferManager.new 4 ⟨2, 2, 2⟩)
      (2 ^ 32) (sampleRec 1) BufferType.L1Price = none ∧
    InstrumentBufferManager.read (InstrumentBufferManager.new 4 ⟨2, 2, 2⟩)
      (2 ^ 32) BufferType.L1Price = none := by decide

/-- C8 witness: unregistered token 5 on a fresh manager is silently
dropped. -/
theorem c8_unregistered_dropped_witness :
    InstrumentBufferManager.write (InstrumentBufferManager.new 4 ⟨2, 2, 2⟩) 5
      (sampleRec 1) BufferType.L1Price =
      some (false, InstrumentBufferManager.new 4 ⟨2, 2, 2⟩) ∧
    InstrumentBufferManager.read (InstrumentBufferManager.new 4 ⟨2, 2, 2⟩) 5
      BufferType.L1Price =
      some (none, InstrumentBufferManager.new 4 ⟨2, 2, 2⟩) :=
  c8_unregistered_dropped (InstrumentBufferManager.new 4 ⟨2, 2, 2⟩) 5
    (sampleRec 1) BufferType.L1Price (by decide) (by decide) (by decide)

/-- C9 (corrected): ring construction with capacity 0 does not fail —
there is no `InvalidCapacity` error path at all: `new(0)` returns a ring
with zero slots and zero indices; that ring is unusable in that every
write panics (`% 0`, modelled `none`) while every read reports empty. -/
theorem c9_zero_capacity :
    ZeroAllocRingBuffer.new 0 = ⟨[], 0, 0, 0⟩ ∧
    (∀ r, ZeroAllocRingBuffer.write (ZeroAllocRingBuffer.new 0) r = none) ∧
    ZeroAllocRingBuffer.read (ZeroAllocRingBuffer.new 0) =
      some (none, ZeroAllocRingBuffer.new 0) := by
  refine ⟨rfl, fun r => rfl, rfl⟩

/-- C9 counterexample: `new(0)` succeeds and returns a ring (capacity 0,
empty buffer, zero indices) instead of failing with `InvalidCapacity`;
the first write on it panics. -/
theorem c9_new_zero_counterexample :
    ZeroAllocRingBuffer.new 0 = ⟨[], 0, 0, 0⟩ ∧
    ZeroAllocRingBuffer.write (ZeroAllocRingBuffer.new 0) (sampleRec 1) =
      none := by decide
